import Mathlib

/-!
Simon game (`game.js`): the session controller.

A shallow embedding of the module-level variables of `game.js`, of the parts of
the page it writes to, and of its functions and event handlers, followed by the
properties of the turn-validation loop.

Conventions.
* Every handler and timer callback runs to completion (the page is
  single-threaded), so each is a function `State → State`.
* `setTimeout` appends a `Timer` to `State.timers`; a pending timer is run by
  `fire`.  No clock is modelled: any pending timer may be fired at any point, so
  the reachable states over-approximate those of the browser.
* `Math.floor(Math.random() * COLORS.length)` is an index `k : Fin 4`, passed to
  `nextSequence` by whoever runs the callback.
* Numbers are natural numbers; none of the values handled here can overflow or
  become fractional (`flashTime() / 2` is 240, 150 or 90).
-/

namespace Simon

/-! ## Data model -/

/-- The entries of `COLORS`; a colour tile's element id is its colour name. -/
inductive Signal where
  | green
  | red
  | yellow
  | blue
  deriving DecidableEq, Repr

/-- The constant `COLORS`: green, red, yellow, blue. -/
def COLORS : List Signal := [Signal.green, Signal.red, Signal.yellow, Signal.blue]

/-- The entry `COLORS[k]` for an index `k` in range. -/
def colorAt (k : Fin 4) : Signal := COLORS.get (Fin.cast rfl k)

/-- The first argument of `playTone`: a colour name or `"wrong"`. -/
inductive Tone where
  | tile (c : Signal)
  | wrong
  deriving DecidableEq, Repr

/-- What `levelTitle.textContent` shows: the page's own text until the first
write, then `Level n` or the game-over line. -/
inductive Title where
  | page
  | level (n : Nat)
  | gameOver
  deriving DecidableEq, Repr

/-- The closures handed to `setTimeout`. -/
inductive Callback where
  /-- the function `nextSequence`, scheduled by `startGame` and `checkAnswer` -/
  | nextSequence
  /-- the closure `() => flashButton(gamePattern[i])`, with `i` captured by the loop -/
  | flashAt (i : Nat)
  /-- the closure removing the class `pulse` from the tile `c` -/
  | removePulse (c : Signal)
  /-- the closure removing the class `game-over` from the body -/
  | removeGameOver
  /-- the closure stopping the oscillator of a tone -/
  | stopTone
  deriving DecidableEq, Repr

/-- One pending `setTimeout`: the delay it was given and its callback. -/
structure Timer where
  delay : Nat
  cb : Callback
  deriving DecidableEq, Repr

/-- The module-level variables, the page elements written by the script, the
persisted item and the pending timers. -/
structure State where
  /-- variable `gamePattern` -/
  gamePattern : List Signal
  /-- variable `userPattern` -/
  userPattern : List Signal
  /-- variable `level` -/
  level : Nat
  /-- variable `started` -/
  started : Bool
  /-- variable `score` -/
  score : Nat
  /-- variable `highScore` -/
  highScore : Nat
  /-- variable `soundOn` -/
  soundOn : Bool
  /-- variable `speed`: 1 slow, 2 normal, 3 fast -/
  speed : Nat
  /-- the `localStorage` item `simon_highscore`, if present -/
  stored : Option Nat
  /-- whether `audioCtx` is non-null -/
  audioCtx : Bool
  /-- whether `audioCtx.state === "suspended"` (owned by the browser) -/
  audioSuspended : Bool
  /-- number of `audioCtx.resume()` requests issued -/
  resumes : Nat
  /-- text of `levelSpan` -/
  levelSpan : Nat
  /-- text of `scoreSpan` -/
  scoreSpan : Nat
  /-- text of `highSpan` -/
  highSpan : Nat
  /-- text of `levelTitle` -/
  levelTitle : Title
  /-- whether `document.body` carries the class `game-over` -/
  gameOver : Bool
  /-- the tiles carrying the class `pulse` -/
  pulse : List Signal
  /-- the tones started so far: name and duration in ms -/
  tones : List (Tone × Nat)
  /-- the pending `setTimeout` callbacks, oldest first -/
  timers : List Timer
  deriving DecidableEq, Repr

/-- The state once the script has run: `highScore` is read from the persisted
item (`|| 0` when absent) and shown; nothing is scheduled. -/
def init (stored : Option Nat) (audioCtx audioSuspended : Bool) : State :=
  { gamePattern := []
    userPattern := []
    level := 0
    started := false
    score := 0
    highScore := stored.getD 0
    soundOn := true
    speed := 2
    stored := stored
    audioCtx := audioCtx
    audioSuspended := audioSuspended
    resumes := 0
    levelSpan := 0
    scoreSpan := 0
    highSpan := stored.getD 0
    levelTitle := Title.page
    gameOver := false
    pulse := []
    tones := []
    timers := [] }

/-! ## Functions of `game.js` -/

/-- Function `playTone(name, duration)`: nothing without an audio context or with sound
off; otherwise a tone starts and its stop is scheduled. -/
def playTone (s : State) (name : Tone) (duration : Nat) : State :=
  if !s.audioCtx || !s.soundOn then s
  else
    { s with
      tones := s.tones ++ [(name, duration)]
      timers := s.timers ++ [⟨duration, Callback.stopTone⟩] }

/-- Function `flashTime()`. -/
def flashTime (s : State) : Nat :=
  if s.speed = 1 then 480 else if s.speed = 2 then 300 else 180

/-- Function `flashButton(color)` for an existing tile. -/
def flashButton (s : State) (color : Signal) : State :=
  let s1 := { s with pulse := if color ∈ s.pulse then s.pulse else s.pulse ++ [color] }
  let s2 := playTone s1 (Tone.tile color) (max 100 (flashTime s1 / 2))
  { s2 with timers := s2.timers ++ [⟨flashTime s2, Callback.removePulse color⟩] }

/-- The playback loop of `nextSequence`: `n` iterations are left, `i` is the
loop index and `delay` the running offset; `ft` is `flashTime()`. -/
def playbackLoop (ft : Nat) : Nat → Nat → Nat → List Timer
  | 0, _, _ => []
  | n + 1, i, delay => ⟨delay, Callback.flashAt i⟩ :: playbackLoop ft n (i + 1) (delay + ft)

/-- Function `nextSequence()`, with `k = Math.floor(Math.random() * COLORS.length)`. -/
def nextSequence (s : State) (k : Fin 4) : State :=
  let gp := s.gamePattern ++ [colorAt k]
  { s with
    userPattern := []
    level := s.level + 1
    levelSpan := s.level + 1
    levelTitle := Title.level (s.level + 1)
    gamePattern := gp
    timers := s.timers ++ playbackLoop (flashTime s) gp.length 0 300 }

/-- Function `checkAnswer(idx)`. An index past the end of an array reads `undefined`,
here `none`. -/
def checkAnswer (s : State) (idx : Nat) : State :=
  if s.gamePattern[idx]? = s.userPattern[idx]? then
    if s.userPattern.length = s.gamePattern.length then
      { s with
        score := s.score + 10 * s.level
        scoreSpan := s.score + 10 * s.level
        timers := s.timers ++ [⟨700, Callback.nextSequence⟩] }
    else s
  else
    let s1 := playTone s Tone.wrong 300
    let s2 : State :=
      { s1 with
        gameOver := true
        levelTitle := Title.gameOver
        timers := s1.timers ++ [⟨400, Callback.removeGameOver⟩] }
    let s3 : State :=
      if s2.score > s2.highScore then
        { s2 with highScore := s2.score, stored := some s2.score, highSpan := s2.score }
      else s2
    { s3 with
      started := false
      gamePattern := []
      userPattern := []
      level := 0
      score := 0
      levelSpan := 0
      scoreSpan := 0 }

/-- Function `startGame()`. -/
def startGame (s : State) : State :=
  if !s.started then
    { s with
      resumes := if s.audioCtx && s.audioSuspended then s.resumes + 1 else s.resumes
      started := true
      gamePattern := []
      userPattern := []
      level := 0
      score := 0
      levelSpan := 0
      scoreSpan := 0
      levelTitle := Title.level 0
      timers := s.timers ++ [⟨400, Callback.nextSequence⟩] }
  else s

/-! ## Event handlers -/

/-- The click handler of `restartBtn`. -/
def restart (s : State) : State :=
  startGame
    { s with
      started := false
      gamePattern := []
      userPattern := []
      level := 0
      score := 0
      levelSpan := 0
      scoreSpan := 0 }

/-- The change handler of `soundToggle`. -/
def setSoundEnabled (s : State) (checked : Bool) : State :=
  { s with soundOn := checked }

/-- The change handler of `speedSelect`. -/
def setSpeed (s : State) (value : Nat) : State :=
  { s with speed := value }

/-- The `keydown` handler of the document. -/
def keydown (s : State) : State :=
  if !s.started then startGame s else s

/-- The `keyup` handler of `startBtn`. -/
def startKeyup (s : State) (enter : Bool) : State :=
  if enter then startGame s else s

/-- The click handler of `grid` for a click on the tile `color`. -/
def submitInput (s : State) (color : Signal) : State :=
  if !s.started then s
  else
    let s1 := { s with userPattern := s.userPattern ++ [color] }
    let s2 := flashButton s1 color
    checkAnswer s2 (s2.userPattern.length - 1)

/-- The click handler of `grid`: `btn` is the tile under the click, if any. -/
def gridClick (s : State) (btn : Option Signal) : State :=
  match btn with
  | none => s
  | some color => submitInput s color

/-- Running a timer callback; `k` is the random index drawn if it is
`nextSequence`. `flashAt i` reads `gamePattern[i]` when it runs, and
`flashButton(undefined)` finds no element. -/
def runCallback (s : State) (cb : Callback) (k : Fin 4) : State :=
  match cb with
  | Callback.nextSequence => nextSequence s k
  | Callback.flashAt i =>
    match s.gamePattern[i]? with
    | some c => flashButton s c
    | none => s
  | Callback.removePulse c => { s with pulse := s.pulse.filter (fun x => x ≠ c) }
  | Callback.removeGameOver => { s with gameOver := false }
  | Callback.stopTone => s

/-- The pending timer number `i` fires: it leaves the queue and its callback
runs. Nothing happens when there is no such timer. -/
def fire (s : State) (i : Nat) (k : Fin 4) : State :=
  match s.timers[i]? with
  | none => s
  | some t => runCallback { s with timers := s.timers.eraseIdx i } t.cb k

/-- What can happen to the page. -/
inductive Event where
  | startClick
  | restartClick
  | soundChange (checked : Bool)
  | speedChange (value : Nat)
  | keydown
  | startKeyup (enter : Bool)
  | gridClick (btn : Option Signal)
  | timer (i : Nat) (k : Fin 4)
  | audioState (suspended : Bool)
  deriving DecidableEq, Repr

/-- One event, run to completion. -/
def step (s : State) : Event → State
  | Event.startClick => startGame s
  | Event.restartClick => restart s
  | Event.soundChange b => setSoundEnabled s b
  | Event.speedChange v => setSpeed s v
  | Event.keydown => keydown s
  | Event.startKeyup e => startKeyup s e
  | Event.gridClick b => gridClick s b
  | Event.timer i k => fire s i k
  | Event.audioState b => { s with audioSuspended := b }

/-- A run: the events in order. -/
def run (s : State) (evs : List Event) : State :=
  evs.foldl step s

/-! ## Derived notions used in the statements -/

/-- The game variables and settings, without the page and the timers. -/
structure Vars where
  gamePattern : List Signal
  userPattern : List Signal
  level : Nat
  started : Bool
  score : Nat
  highScore : Nat
  stored : Option Nat
  soundOn : Bool
  speed : Nat
  deriving DecidableEq, Repr

/-- The game variables of a state. -/
def State.vars (s : State) : Vars :=
  { gamePattern := s.gamePattern
    userPattern := s.userPattern
    level := s.level
    started := s.started
    score := s.score
    highScore := s.highScore
    stored := s.stored
    soundOn := s.soundOn
    speed := s.speed }

/-- The player clicks the tiles `ins`, in order. -/
def clicks (s : State) (ins : List Signal) : State :=
  ins.foldl submitInput s

/-- The number of pending `setTimeout(nextSequence, …)`. -/
def pendingNext (s : State) : Nat :=
  (s.timers.filter (fun t => decide (t.cb = Callback.nextSequence))).length

/-- The queue position of the oldest pending `nextSequence` timer (the length of
the queue when there is none). -/
def nextIdx (s : State) : Nat :=
  s.timers.findIdx (fun t => decide (t.cb = Callback.nextSequence))

/-- The oldest pending `nextSequence` timer fires, drawing `k`. -/
def fireNext (s : State) (k : Fin 4) : State :=
  fire s (nextIdx s) k

/-- One level: the pending `nextSequence` fires, drawing `k`, and the player
clicks the whole of `gamePattern` in order. -/
def playLevel (s : State) (k : Fin 4) : State :=
  clicks (fireNext s k) (fireNext s k).gamePattern

/-- Level after level, with the random draws `ks`. -/
def playLevels (s : State) (ks : List (Fin 4)) : State :=
  ks.foldl playLevel s

/-- A page opened with nothing persisted, then `startGame()`. -/
def fresh : State := startGame (init none true false)

/-- Two levels completed with the draws green, red; then level 3 begins with the
draw yellow: `gamePattern` is green, red, yellow and `score` is 30. -/
def level3 : State := fireNext (playLevels fresh [0, 1]) 2

/-- Whether the event `e`, arriving in state `s`, takes the failure branch of
`checkAnswer`: a click on a tile during a session, whose colour is not the entry
of `gamePattern` at the index where it is appended. -/
def fails (s : State) : Event → Bool
  | Event.gridClick (some c) =>
    s.started && decide (s.gamePattern[s.userPattern.length]? ≠ some c)
  | _ => false

/-- The scores held at each failure of the run `evs` from `s`, oldest first. -/
def failScores : State → List Event → List Nat
  | _, [] => []
  | s, e :: es =>
    if fails s e then s.score :: failScores (step s e) es else failScores (step s e) es

/-- A level-3 session with score 30 on a page whose persisted high score is 20:
`gamePattern` is green, red, yellow. -/
def level3High20 : State :=
  fireNext (playLevels (startGame (init (some 20) true false)) [0, 1]) 2

/-- The value `Math.floor(r * COLORS.length)` for a random draw `r`. A draw is
a double in `[0, 1)`, hence a rational, and the product of a double below 1 with
4 is exact, so the floor taken here is the one the script computes. -/
def randomIndex (r : ℚ) : ℤ :=
  ⌊r * (COLORS.length : ℚ)⌋

/-- The value `COLORS[Math.floor(r * COLORS.length)]`; `none` stands for
`undefined`. -/
def randomColor (r : ℚ) : Option Signal :=
  if 0 ≤ randomIndex r then COLORS[(randomIndex r).toNat]? else none

/-- The first level has just begun: `gamePattern` is green and its playback,
one flash at offset 300, is pending (speed normal). -/
def level1 : State := fireNext fresh 0

/-- A run in the order of the clock. Start at 0 ms; `nextSequence` at 400 draws
green; its flash at 700, the tone stops at 850, the pulse ends at 1000; the
player clicks green at 1100, which completes level 1 and schedules
`nextSequence` for 1800; the player clicks green again at 1200, which fails;
the timers due at 1250, 1350, 1400, 1500, 1500, 1600 fire; at 1800 the
`nextSequence` scheduled before the failure fires and draws red. -/
def staleRun : List Event :=
  [Event.startClick, Event.timer 0 0, Event.timer 0 0, Event.timer 0 0, Event.timer 0 0,
   Event.gridClick (some Signal.green), Event.gridClick (some Signal.green),
   Event.timer 0 0, Event.timer 2 0, Event.timer 0 0, Event.timer 1 0, Event.timer 1 0,
   Event.timer 1 0, Event.timer 0 1]

/-- The relation between the patterns and the level that the handlers keep:
`level` is the length of `gamePattern`, and `userPattern` is the beginning of
`gamePattern`. -/
def Vars.Consistent (v : Vars) : Prop :=
  v.level = v.gamePattern.length ∧ v.gamePattern.take v.userPattern.length = v.userPattern

/-! ## Basic facts about the functions -/

theorem playTone_vars (s : State) (n : Tone) (d : Nat) : (playTone s n d).vars = s.vars := by
  unfold playTone
  split <;> rfl

theorem flashButton_vars (s : State) (c : Signal) : (flashButton s c).vars = s.vars := by
  unfold flashButton
  simp only []
  exact (playTone_vars _ _ _)

theorem checkAnswer_continue (t : State) (idx : Nat)
    (hm : t.gamePattern[idx]? = t.userPattern[idx]?)
    (hl : t.userPattern.length ≠ t.gamePattern.length) : checkAnswer t idx = t := by
  unfold checkAnswer
  rw [if_pos hm, if_neg hl]

theorem checkAnswer_complete (t : State) (idx : Nat)
    (hm : t.gamePattern[idx]? = t.userPattern[idx]?)
    (hl : t.userPattern.length = t.gamePattern.length) :
    checkAnswer t idx =
      { t with
        score := t.score + 10 * t.level
        scoreSpan := t.score + 10 * t.level
        timers := t.timers ++ [⟨700, Callback.nextSequence⟩] } := by
  unfold checkAnswer
  rw [if_pos hm, if_pos hl]

theorem checkAnswer_wrong (t : State) (idx : Nat)
    (hm : t.gamePattern[idx]? ≠ t.userPattern[idx]?) :
    (checkAnswer t idx).vars =
      { gamePattern := []
        userPattern := []
        level := 0
        started := false
        score := 0
        highScore := max t.highScore t.score
        stored := if t.score > t.highScore then some t.score else t.stored
        soundOn := t.soundOn
        speed := t.speed } := by
  have hp := playTone_vars t Tone.wrong 300
  unfold checkAnswer
  rw [if_neg hm]
  simp only [State.vars, Vars.mk.injEq] at hp ⊢
  obtain ⟨-, -, -, -, h5, h6, h7, h8, h9⟩ := hp
  rw [h5, h6]
  by_cases h : t.score > t.highScore
  · simp [h, h8, h9, Nat.max_eq_right (Nat.le_of_lt h)]
  · simp [h, h7, h8, h9, Nat.max_eq_left (Nat.le_of_not_lt h)]

theorem submitInput_active (s : State) (c : Signal) (hs : s.started = true) :
    submitInput s c =
      checkAnswer (flashButton { s with userPattern := s.userPattern ++ [c] } c)
        s.userPattern.length := by
  have h := flashButton_vars { s with userPattern := s.userPattern ++ [c] } c
  have hlen : (flashButton { s with userPattern := s.userPattern ++ [c] } c).userPattern.length - 1
      = s.userPattern.length := by
    have h2 := congrArg Vars.userPattern h
    simp only [State.vars] at h2
    rw [h2]
    simp
  unfold submitInput
  rw [if_neg (by simp [hs])]
  simp only []
  rw [hlen]


theorem submitInput_continue (s : State) (c : Signal) (hs : s.started = true)
    (hm : s.gamePattern[s.userPattern.length]? = some c)
    (hl : s.userPattern.length + 1 ≠ s.gamePattern.length) :
    submitInput s c = flashButton { s with userPattern := s.userPattern ++ [c] } c := by
  have h := flashButton_vars { s with userPattern := s.userPattern ++ [c] } c
  rw [submitInput_active s c hs]
  generalize flashButton { s with userPattern := s.userPattern ++ [c] } c = t at h ⊢
  simp only [State.vars, Vars.mk.injEq] at h
  obtain ⟨hg, hu, -⟩ := h
  apply checkAnswer_continue
  · rw [hu, hg, hm]; simp
  · rw [hu, hg]; simpa using hl

theorem submitInput_complete (s : State) (c : Signal) (hs : s.started = true)
    (hm : s.gamePattern[s.userPattern.length]? = some c)
    (hl : s.userPattern.length + 1 = s.gamePattern.length) :
    submitInput s c =
      { flashButton { s with userPattern := s.userPattern ++ [c] } c with
        score := s.score + 10 * s.level
        scoreSpan := s.score + 10 * s.level
        timers := (flashButton { s with userPattern := s.userPattern ++ [c] } c).timers ++
          [⟨700, Callback.nextSequence⟩] } := by
  have h := flashButton_vars { s with userPattern := s.userPattern ++ [c] } c
  rw [submitInput_active s c hs]
  generalize flashButton { s with userPattern := s.userPattern ++ [c] } c = t at h ⊢
  simp only [State.vars, Vars.mk.injEq] at h
  obtain ⟨hg, hu, hlv, -, hsc, -⟩ := h
  rw [checkAnswer_complete t _ (by rw [hu, hg, hm]; simp) (by rw [hu, hg]; simpa using hl)]
  simp [hsc, hlv]

theorem submitInput_wrong (s : State) (c : Signal) (hs : s.started = true)
    (hm : s.gamePattern[s.userPattern.length]? ≠ some c) :
    (submitInput s c).vars =
      { gamePattern := []
        userPattern := []
        level := 0
        started := false
        score := 0
        highScore := max s.highScore s.score
        stored := if s.score > s.highScore then some s.score else s.stored
        soundOn := s.soundOn
        speed := s.speed } := by
  have h := flashButton_vars { s with userPattern := s.userPattern ++ [c] } c
  rw [submitInput_active s c hs]
  generalize flashButton { s with userPattern := s.userPattern ++ [c] } c = t at h ⊢
  simp only [State.vars, Vars.mk.injEq] at h
  obtain ⟨hg, hu, -, -, hsc, hhs, hst, hso, hsp⟩ := h
  rw [checkAnswer_wrong t _ (by rw [hu, hg]; simpa using hm), hsc, hhs, hst, hso, hsp]


theorem clicks_cons (s : State) (c : Signal) (q : List Signal) :
    clicks s (c :: q) = clicks (submitInput s c) q := rfl

theorem clicks_append (s : State) (p q : List Signal) :
    clicks s (p ++ q) = clicks (clicks s p) q := by
  simp [clicks, List.foldl_append]

theorem clicks_match (p : List Signal) : ∀ s : State, s.started = true →
    (∀ i, i < p.length → s.gamePattern[s.userPattern.length + i]? = p[i]?) →
    (clicks s p).vars =
      { s.vars with
        userPattern := s.userPattern ++ p
        score := if p ≠ [] ∧ s.userPattern.length + p.length = s.gamePattern.length
          then s.score + 10 * s.level else s.score } := by
  induction p with
  | nil => intro s _ _; simp [clicks, State.vars]
  | cons c q ih =>
    intro s hs hp
    have h0 : s.gamePattern[s.userPattern.length]? = some c := by
      simpa using hp 0 (by simp)
    have hf := flashButton_vars { s with userPattern := s.userPattern ++ [c] } c
    by_cases hl : s.userPattern.length + 1 = s.gamePattern.length
    · cases q with
      | nil =>
        show (submitInput s c).vars = _
        rw [submitInput_complete s c hs h0 hl]
        generalize flashButton { s with userPattern := s.userPattern ++ [c] } c = t at hf ⊢
        simp only [State.vars, Vars.mk.injEq] at hf ⊢
        obtain ⟨hg, hu, hlv, hst, hsc, hhs, hsd, hso, hsp⟩ := hf
        simp [hg, hu, hlv, hst, hhs, hsd, hso, hsp, hl]
      | cons d r =>
        have h1 := hp 1 (by simp)
        rw [hl] at h1
        simp at h1
    · rw [clicks_cons, submitInput_continue s c hs h0 hl]
      generalize flashButton { s with userPattern := s.userPattern ++ [c] } c = t at hf ⊢
      simp only [State.vars, Vars.mk.injEq] at hf
      obtain ⟨hg, hu, hlv, hst, hsc, hhs, hsd, hso, hsp⟩ := hf
      have hst2 : t.started = true := by rw [hst, hs]
      rw [ih t hst2]
      · simp only [State.vars, Vars.mk.injEq, hg, hu, hlv, hst, hsc, hhs, hsd, hso, hsp]
        refine ⟨trivial, by simp, trivial, trivial, ?_, trivial, trivial, trivial, trivial⟩
        simp only [List.length_append, List.length_singleton, List.length_cons]
        by_cases hq : q = []
        · subst hq
          simp [hl]
        · have e : s.userPattern.length + 1 + q.length = s.userPattern.length + (q.length + 1) := by
            omega
          simp [hq, e]
      · intro i hi
        have := hp (i + 1) (by simpa using hi)
        rw [hg, hu]
        simp only [List.length_append, List.length_singleton]
        rw [show s.userPattern.length + 1 + i = s.userPattern.length + (i + 1) by omega, this]
        simp


theorem playTone_pendingNext (s : State) (n : Tone) (d : Nat) :
    pendingNext (playTone s n d) = pendingNext s := by
  unfold playTone pendingNext
  split <;> simp [List.filter_append]

theorem flashButton_pendingNext (s : State) (c : Signal) :
    pendingNext (flashButton s c) = pendingNext s := by
  have h := playTone_pendingNext
    { s with pulse := if c ∈ s.pulse then s.pulse else s.pulse ++ [c] } (Tone.tile c)
    (max 100 (flashTime { s with pulse := if c ∈ s.pulse then s.pulse else s.pulse ++ [c] } / 2))
  unfold flashButton
  simp only [pendingNext, List.filter_append] at h ⊢
  simpa using h


theorem findIdx_erase_filter {α : Type} (p : α → Bool) : ∀ l : List α,
    0 < (l.filter p).length →
    ∃ t, l[l.findIdx p]? = some t ∧ p t = true ∧
      ((l.eraseIdx (l.findIdx p)).filter p).length + 1 = (l.filter p).length := by
  intro l
  induction l with
  | nil => intro h; simp at h
  | cons a l ih =>
    intro h
    by_cases hp : p a = true
    · exact ⟨a, by simp [List.findIdx_cons, hp], hp, by simp [List.findIdx_cons, hp]⟩
    · have hp2 : p a = false := by simpa using hp
      rw [List.filter_cons_of_neg hp] at h
      obtain ⟨t, h1, h2, h3⟩ := ih h
      refine ⟨t, ?_, h2, ?_⟩
      · simpa [List.findIdx_cons, hp2] using h1
      · simpa [List.findIdx_cons, hp2, List.filter_cons_of_neg hp] using h3

theorem playbackLoop_filter (ft : Nat) : ∀ n i d : Nat,
    (playbackLoop ft n i d).filter (fun t => decide (t.cb = Callback.nextSequence)) = [] := by
  intro n
  induction n with
  | zero => intro i d; rfl
  | succ n ih => intro i d; simp [playbackLoop, ih]

theorem fireNext_pending (s : State) (k : Fin 4) (h : 0 < pendingNext s) :
    (fireNext s k).vars =
      { s.vars with
        userPattern := []
        level := s.level + 1
        gamePattern := s.gamePattern ++ [colorAt k] } ∧
    pendingNext (fireNext s k) + 1 = pendingNext s := by
  obtain ⟨t, h1, h2, h3⟩ := findIdx_erase_filter _ s.timers h
  have h2 : t.cb = Callback.nextSequence := by simpa using h2
  unfold fireNext fire nextIdx
  rw [h1]
  simp only [h2, runCallback, nextSequence]
  refine ⟨rfl, ?_⟩
  simp only [pendingNext, List.filter_append, playbackLoop_filter, List.append_nil]
  exact h3

theorem clicks_match_pending (p : List Signal) : ∀ s : State, s.started = true →
    (∀ i, i < p.length → s.gamePattern[s.userPattern.length + i]? = p[i]?) →
    pendingNext (clicks s p) =
      pendingNext s +
        (if p ≠ [] ∧ s.userPattern.length + p.length = s.gamePattern.length then 1 else 0) := by
  induction p with
  | nil => intro s _ _; simp [clicks]
  | cons c q ih =>
    intro s hs hp
    have h0 : s.gamePattern[s.userPattern.length]? = some c := by
      simpa using hp 0 (by simp)
    have hf := flashButton_vars { s with userPattern := s.userPattern ++ [c] } c
    have hn := flashButton_pendingNext { s with userPattern := s.userPattern ++ [c] } c
    by_cases hl : s.userPattern.length + 1 = s.gamePattern.length
    · cases q with
      | nil =>
        show pendingNext (submitInput s c) = _
        rw [submitInput_complete s c hs h0 hl]
        generalize flashButton { s with userPattern := s.userPattern ++ [c] } c = t at hf hn ⊢
        simp only [pendingNext, List.filter_append] at hn ⊢
        simp [hn, hl]
      | cons d r =>
        have h1 := hp 1 (by simp)
        rw [hl] at h1
        simp at h1
    · rw [clicks_cons, submitInput_continue s c hs h0 hl]
      generalize flashButton { s with userPattern := s.userPattern ++ [c] } c = t at hf hn ⊢
      simp only [State.vars, Vars.mk.injEq] at hf
      obtain ⟨hg, hu, hlv, hst, hsc, hhs, hsd, hso, hsp⟩ := hf
      have hst2 : t.started = true := by rw [hst, hs]
      rw [ih t hst2]
      · rw [hn, hg, hu]
        show pendingNext s + _ = pendingNext s + _
        simp only [List.length_append, List.length_singleton, List.length_cons]
        by_cases hq : q = []
        · subst hq
          simp [hl]
        · have e : s.userPattern.length + 1 + q.length = s.userPattern.length + (q.length + 1) := by
            omega
          simp [hq, e]
      · intro i hi
        have := hp (i + 1) (by simpa using hi)
        rw [hg, hu]
        simp only [List.length_append, List.length_singleton]
        rw [show s.userPattern.length + 1 + i = s.userPattern.length + (i + 1) by omega, this]
        simp

theorem playLevel_step (s : State) (k : Fin 4) (hs : s.started = true)
    (hp : pendingNext s = 1) :
    (playLevel s k).vars =
      { s.vars with
        userPattern := s.gamePattern ++ [colorAt k]
        level := s.level + 1
        gamePattern := s.gamePattern ++ [colorAt k]
        score := s.score + 10 * (s.level + 1) } ∧
    pendingNext (playLevel s k) = 1 := by
  obtain ⟨hv, hn⟩ := fireNext_pending s k (by omega)
  unfold playLevel
  generalize fireNext s k = t at hv hn ⊢
  simp only [State.vars, Vars.mk.injEq] at hv
  obtain ⟨hg, hu, hlv, hst, hsc, hhs, hsd, hso, hsp⟩ := hv
  have hmatch : ∀ i, i < t.gamePattern.length →
      t.gamePattern[t.userPattern.length + i]? = t.gamePattern[i]? := by
    intro i _
    rw [hu]
    simp
  constructor
  · rw [clicks_match t.gamePattern t (by rw [hst, hs]) hmatch]
    simp [State.vars, hg, hu, hlv, hst, hsc, hhs, hsd, hso, hsp]
  · rw [clicks_match_pending t.gamePattern t (by rw [hst, hs]) hmatch]
    have : pendingNext t = 0 := by omega
    simp [this, hg, hu]

theorem playLevels_invariant (ks : List (Fin 4)) : ∀ (s : State) (n : Nat),
    s.started = true → pendingNext s = 1 → s.level = n → s.score = 5 * n * (n + 1) →
    (playLevels s ks).started = true ∧ pendingNext (playLevels s ks) = 1 ∧
    (playLevels s ks).level = n + ks.length ∧
    (playLevels s ks).score = 5 * (n + ks.length) * (n + ks.length + 1) ∧
    (playLevels s ks).gamePattern = s.gamePattern ++ ks.map colorAt := by
  induction ks with
  | nil =>
    intro s n h1 h2 h3 h4
    exact ⟨h1, h2, by simpa using h3, by simpa using h4, by simp [playLevels]⟩
  | cons k ks ih =>
    intro s n h1 h2 h3 h4
    obtain ⟨hv, hn⟩ := playLevel_step s k h1 h2
    simp only [State.vars, Vars.mk.injEq] at hv
    obtain ⟨hg, -, hlv, hst, hsc, -⟩ := hv
    have := ih (playLevel s k) (n + 1) (by rw [hst, h1]) hn (by rw [hlv, h3])
      (by rw [hsc, h3, h4]; ring)
    rw [hg] at this
    show (playLevels (playLevel s k) ks).started = true ∧ _
    rw [List.length_cons, show n + (ks.length + 1) = n + 1 + ks.length by omega]
    simpa using this


theorem submitInput_vars (s : State) (c : Signal) :
    (submitInput s c).vars =
      if s.started = true then
        if s.gamePattern[s.userPattern.length]? = some c then
          { s.vars with
            userPattern := s.userPattern ++ [c]
            score := if s.userPattern.length + 1 = s.gamePattern.length
              then s.score + 10 * s.level else s.score }
        else
          { gamePattern := []
            userPattern := []
            level := 0
            started := false
            score := 0
            highScore := max s.highScore s.score
            stored := if s.score > s.highScore then some s.score else s.stored
            soundOn := s.soundOn
            speed := s.speed }
      else s.vars := by
  by_cases hs : s.started = true
  · rw [if_pos hs]
    by_cases hm : s.gamePattern[s.userPattern.length]? = some c
    · rw [if_pos hm]
      by_cases hl : s.userPattern.length + 1 = s.gamePattern.length
      · rw [if_pos hl, submitInput_complete s c hs hm hl]
        have hf := flashButton_vars { s with userPattern := s.userPattern ++ [c] } c
        generalize flashButton { s with userPattern := s.userPattern ++ [c] } c = t at hf ⊢
        simp only [State.vars, Vars.mk.injEq] at hf ⊢
        obtain ⟨hg, hu, hlv, hst, hsc, hhs, hsd, hso, hsp⟩ := hf
        exact ⟨hg, hu, hlv, hst, trivial, hhs, hsd, hso, hsp⟩
      · rw [if_neg hl, submitInput_continue s c hs hm hl, flashButton_vars]
        rfl
    · rw [if_neg hm, submitInput_wrong s c hs hm]
  · rw [if_neg hs]
    unfold submitInput
    rw [if_pos (by simpa using hs)]

theorem startGame_vars (s : State) :
    (startGame s).vars =
      if s.started = true then s.vars
      else
        { s.vars with
          started := true
          gamePattern := []
          userPattern := []
          level := 0
          score := 0 } := by
  unfold startGame
  by_cases hs : s.started = true
  · simp [hs]
  · simp [hs, State.vars]

theorem restart_vars (s : State) :
    (restart s).vars =
      { s.vars with
        started := true
        gamePattern := []
        userPattern := []
        level := 0
        score := 0 } := by
  unfold restart
  rw [startGame_vars]
  rfl

theorem nextSequence_vars (s : State) (k : Fin 4) :
    (nextSequence s k).vars =
      { s.vars with
        userPattern := []
        level := s.level + 1
        gamePattern := s.gamePattern ++ [colorAt k] } := rfl

theorem runCallback_vars (s : State) (cb : Callback) (k : Fin 4) :
    (runCallback s cb k).vars =
      if cb = Callback.nextSequence then (nextSequence s k).vars else s.vars := by
  cases cb with
  | nextSequence => simp [runCallback]
  | flashAt i =>
    simp only [runCallback]
    split
    · simp [flashButton_vars]
    · simp
  | removePulse c => simp [runCallback, State.vars]
  | removeGameOver => simp [runCallback, State.vars]
  | stopTone => simp [runCallback]

theorem fire_vars (s : State) (i : Nat) (k : Fin 4) :
    (fire s i k).vars = s.vars ∨ (fire s i k).vars = (nextSequence s k).vars := by
  unfold fire
  split
  · exact Or.inl rfl
  · rw [runCallback_vars]
    split
    · exact Or.inr rfl
    · exact Or.inl rfl

/-- A property of the game variables that every handler and callback keeps is
kept by every event. -/
theorem step_preserves (P : Vars → Prop)
    (hstart : ∀ v : Vars, P v →
      P { v with started := true, gamePattern := [], userPattern := [], level := 0, score := 0 })
    (hnext : ∀ (s : State) (k : Fin 4), P s.vars → P (nextSequence s k).vars)
    (hsubmit : ∀ (s : State) (c : Signal), P s.vars → P (submitInput s c).vars)
    (hsound : ∀ (v : Vars) (b : Bool), P v → P { v with soundOn := b })
    (hspeed : ∀ (v : Vars) (n : Nat), P v → P { v with speed := n })
    (s : State) (e : Event) (h : P s.vars) : P (step s e).vars := by
  have hsg : P (startGame s).vars := by
    rw [startGame_vars]
    split
    · exact h
    · exact hstart _ h
  cases e with
  | startClick => exact hsg
  | restartClick =>
    show P (restart s).vars
    rw [restart_vars]
    exact hstart _ h
  | soundChange b => exact hsound _ b h
  | speedChange v => exact hspeed _ v h
  | keydown =>
    show P (keydown s).vars
    unfold keydown
    split
    · exact hsg
    · exact h
  | startKeyup en =>
    show P (startKeyup s en).vars
    unfold startKeyup
    split
    · exact hsg
    · exact h
  | gridClick b =>
    cases b with
    | none => exact h
    | some c => exact hsubmit s c h
  | timer i k =>
    show P (fire s i k).vars
    rcases fire_vars s i k with h1 | h1
    · rw [h1]; exact h
    · rw [h1]; exact hnext s k h
  | audioState b => exact h

theorem run_preserves (P : Vars → Prop) (hstep : ∀ s e, P s.vars → P (step s e).vars)
    (evs : List Event) : ∀ s : State, P s.vars → P (run s evs).vars := by
  induction evs with
  | nil => intro s h; exact h
  | cons e es ih => intro s h; exact ih (step s e) (hstep s e h)

theorem step_highScore (s : State) (e : Event) :
    (step s e).highScore = if fails s e = true then max s.highScore s.score else s.highScore := by
  have hsg : (startGame s).highScore = s.highScore := by
    show (startGame s).vars.highScore = _
    rw [startGame_vars]
    split <;> rfl
  cases e with
  | startClick => exact hsg
  | restartClick =>
    show (restart s).vars.highScore = _
    rw [restart_vars]
    rfl
  | soundChange b => rfl
  | speedChange v => rfl
  | keydown =>
    show (keydown s).highScore = _
    unfold keydown
    split
    · exact hsg
    · rfl
  | startKeyup en =>
    show (startKeyup s en).highScore = _
    unfold startKeyup
    split
    · exact hsg
    · rfl
  | gridClick b =>
    cases b with
    | none => rfl
    | some c =>
      show (submitInput s c).vars.highScore = _
      rw [submitInput_vars]
      by_cases hs : s.started = true
      · by_cases hm : s.gamePattern[s.userPattern.length]? = some c
        · simp [fails, hs, hm, State.vars]
        · simp [fails, hs, hm]
      · simp [fails, hs, State.vars]
  | timer i k =>
    show (fire s i k).vars.highScore = _
    rcases fire_vars s i k with h | h <;> rw [h] <;> rfl
  | audioState b => rfl

theorem run_cons (s : State) (e : Event) (es : List Event) :
    run s (e :: es) = run (step s e) es := rfl

/-! ## Turn validation -/

/-- C1. From an active state with an empty `userPattern`, let the player click
`ins`, and let `c` be the `k`-th click, all earlier clicks matching
`gamePattern` at their index. Then: after each of the first `k` clicks the
session is still active (no earlier click has failed); as long as `gamePattern`
is not completed, the clicks so far have only been appended to `userPattern`;
if `c` matches `gamePattern[k]` without completing it, the click only appends
`c`; if `c` differs from `gamePattern[k]` (also when there is no such entry),
the click takes the failure branch: patterns emptied, level and score 0,
session inactive, high score the larger of high score and score. -/
theorem first_wrong_input_fails (s : State) (ins : List Signal) (k : Nat) (c : Signal)
    (hs : s.started = true) (hu : s.userPattern = [])
    (hk : ins[k]? = some c)
    (hpre : ∀ i, i < k → ins[i]? = s.gamePattern[i]?) :
    (∀ j, j ≤ k → (clicks s (ins.take j)).started = true) ∧
    (k < s.gamePattern.length →
      (clicks s (ins.take k)).vars = { s.vars with userPattern := ins.take k }) ∧
    (s.gamePattern[k]? = some c → k + 1 < s.gamePattern.length →
      (submitInput (clicks s (ins.take k)) c).vars =
        { (clicks s (ins.take k)).vars with
          userPattern := (clicks s (ins.take k)).userPattern ++ [c] }) ∧
    (s.gamePattern[k]? ≠ some c →
      (submitInput (clicks s (ins.take k)) c).vars =
        { gamePattern := []
          userPattern := []
          level := 0
          started := false
          score := 0
          highScore := max (clicks s (ins.take k)).highScore (clicks s (ins.take k)).score
          stored :=
            if (clicks s (ins.take k)).score > (clicks s (ins.take k)).highScore
            then some (clicks s (ins.take k)).score else (clicks s (ins.take k)).stored
          soundOn := s.soundOn
          speed := s.speed }) := by
  have hklt : k < ins.length := by
    by_contra h
    rw [List.getElem?_eq_none (Nat.le_of_not_lt h)] at hk
    exact Option.noConfusion hk
  have key : ∀ j, j ≤ k → (clicks s (ins.take j)).vars =
      { s.vars with
        userPattern := ins.take j
        score := if ins.take j ≠ [] ∧ j = s.gamePattern.length
          then s.score + 10 * s.level else s.score } := by
    intro j hj
    have hjl : (ins.take j).length = j := by
      rw [List.length_take]; omega
    have := clicks_match (ins.take j) s hs (by
      intro i hi
      rw [hjl] at hi
      rw [hu, List.length_nil, Nat.zero_add, List.getElem?_take_of_lt hi]
      exact (hpre i (by omega)).symm)
    rw [this, hu, hjl]
    simp
  have hb := key k le_rfl
  have hbs : (clicks s (ins.take k)).started = true := by
    have := congrArg Vars.started hb
    simpa [State.vars, hs] using this
  have hbg : (clicks s (ins.take k)).gamePattern = s.gamePattern := by
    have := congrArg Vars.gamePattern hb
    simpa [State.vars] using this
  have hbu : (clicks s (ins.take k)).userPattern = ins.take k := by
    have := congrArg Vars.userPattern hb
    simpa [State.vars] using this
  have hbl : (clicks s (ins.take k)).userPattern.length = k := by
    rw [hbu, List.length_take]; omega
  refine ⟨?_, ?_, ?_, ?_⟩
  · intro j hj
    have := congrArg Vars.started (key j hj)
    simpa [State.vars, hs] using this
  · intro hlt
    rw [hb]
    simp [Nat.ne_of_lt hlt, State.vars]
  · intro hm hlt
    rw [submitInput_continue _ c hbs (by rw [hbg, hbl]; exact hm) (by rw [hbg, hbl]; omega)]
    rw [flashButton_vars]
    rfl
  · intro hm
    rw [submitInput_wrong _ c hbs (by rw [hbg, hbl]; exact hm)]
    have h1 := congrArg Vars.soundOn hb
    have h2 := congrArg Vars.speed hb
    simp only [State.vars] at h1 h2
    rw [h1, h2]

/-- C1, on the level-3 state with `gamePattern` green, red, yellow: the clicks
green, red are accepted and the third click, blue, fails. -/
theorem first_wrong_input_fails_witness :
    (clicks level3 [Signal.green, Signal.red]).started = true ∧
    (clicks level3 [Signal.green, Signal.red]).userPattern = [Signal.green, Signal.red] ∧
    (submitInput (clicks level3 [Signal.green, Signal.red]) Signal.blue).started = false ∧
    (submitInput (clicks level3 [Signal.green, Signal.red]) Signal.blue).highScore = 30 := by
  have h := first_wrong_input_fails level3 [Signal.green, Signal.red, Signal.blue] 2 Signal.blue
    (by decide) (by decide) (by decide) (by decide)
  have h2 := h.2.1 (by decide)
  have h4 := h.2.2.2 (by decide)
  exact ⟨h.1 2 le_rfl, congrArg Vars.userPattern h2, congrArg Vars.started h4,
    (congrArg Vars.highScore h4).trans (by decide)⟩

/-- C2. In an active state, a click that matches `gamePattern` at the appended
index and brings `userPattern` to the length of `gamePattern` adds exactly
`10 * level` to `score`, leaves `gamePattern`, `level`, `highScore` and
`started` unchanged, and schedules exactly one `nextSequence` (after 700 ms, as
the newest timer). -/
theorem complete_level_adds_ten_times_level (s : State) (c : Signal)
    (hs : s.started = true)
    (hm : s.gamePattern[s.userPattern.length]? = some c)
    (hl : s.userPattern.length + 1 = s.gamePattern.length) :
    (submitInput s c).score = s.score + 10 * s.level ∧
    (submitInput s c).gamePattern = s.gamePattern ∧
    (submitInput s c).userPattern = s.userPattern ++ [c] ∧
    (submitInput s c).level = s.level ∧
    (submitInput s c).highScore = s.highScore ∧
    (submitInput s c).stored = s.stored ∧
    (submitInput s c).started = true ∧
    pendingNext (submitInput s c) = pendingNext s + 1 ∧
    (submitInput s c).timers.getLast? = some ⟨700, Callback.nextSequence⟩ := by
  have hf := flashButton_vars { s with userPattern := s.userPattern ++ [c] } c
  have hn := flashButton_pendingNext { s with userPattern := s.userPattern ++ [c] } c
  rw [submitInput_complete s c hs hm hl]
  generalize flashButton { s with userPattern := s.userPattern ++ [c] } c = t at hf hn ⊢
  simp only [State.vars, Vars.mk.injEq] at hf
  obtain ⟨hg, hu, hlv, hst, -, hhs, hsd, -, -⟩ := hf
  refine ⟨rfl, hg, hu, hlv, hhs, hsd, by rw [← hs]; exact hst, ?_, by simp⟩
  simp only [pendingNext, List.filter_append] at hn ⊢
  simp [hn]

/-- C2, at level 3 with score 30: after green, red the click yellow completes
the level; the score becomes 60 and one more `nextSequence` is pending. -/
theorem complete_level_adds_ten_times_level_witness :
    (submitInput (clicks level3 [Signal.green, Signal.red]) Signal.yellow).score = 60 ∧
    (submitInput (clicks level3 [Signal.green, Signal.red]) Signal.yellow).level = 3 ∧
    pendingNext (submitInput (clicks level3 [Signal.green, Signal.red]) Signal.yellow) = 1 := by
  have h := complete_level_adds_ten_times_level (clicks level3 [Signal.green, Signal.red])
    Signal.yellow (by decide) (by decide) (by decide)
  exact ⟨h.1, h.2.2.2.1, h.2.2.2.2.2.2.2.1⟩

/-- C3. Start from the initial page, then level after level let the pending
`nextSequence` fire (with any draws `ks`) and click the whole pattern in order:
after the `N` levels `ks` the score is `10 * N * (N + 1) / 2` and the level is
`N`; the session is active, the pattern is the drawn colours, exactly one
`nextSequence` is pending, and when it fires the level is `N + 1`. -/
theorem score_after_levels (stored : Option Nat) (a b : Bool) (ks : List (Fin 4)) (k : Fin 4) :
    (playLevels (startGame (init stored a b)) ks).score
      = 10 * ks.length * (ks.length + 1) / 2 ∧
    (playLevels (startGame (init stored a b)) ks).level = ks.length ∧
    (playLevels (startGame (init stored a b)) ks).started = true ∧
    (playLevels (startGame (init stored a b)) ks).gamePattern = ks.map colorAt ∧
    pendingNext (playLevels (startGame (init stored a b)) ks) = 1 ∧
    (fireNext (playLevels (startGame (init stored a b)) ks) k).level = ks.length + 1 := by
  obtain ⟨h1, h2, h3, h4, h5⟩ := playLevels_invariant ks (startGame (init stored a b)) 0
    rfl rfl rfl rfl
  have h6 := (fireNext_pending (playLevels (startGame (init stored a b)) ks) k (by omega)).1
  have h7 := congrArg Vars.level h6
  simp only [Nat.zero_add] at h3 h4
  refine ⟨?_, h3, h1, by simpa [startGame, init] using h5, h2, ?_⟩
  · rw [h4]
    have : 10 * ks.length * (ks.length + 1) = 2 * (5 * ks.length * (ks.length + 1)) := by ring
    rw [this, Nat.mul_div_cancel_left _ (by decide : 0 < 2)]
  · simpa [State.vars, h3] using h7

/-! ## Invariants of the reachable states -/

/-- C4. `level = gamePattern.length` holds in every initial state, is kept by
every event (start, restart, settings, key presses, clicks right or wrong, any
pending timer firing), by `nextSequence` and by a click run on any state that
has it, and so holds after every run from an initial state. -/
theorem level_eq_length_invariant :
    (∀ (st : Option Nat) (a b : Bool), (init st a b).level = (init st a b).gamePattern.length) ∧
    (∀ (s : State) (e : Event), s.level = s.gamePattern.length →
      (step s e).level = (step s e).gamePattern.length) ∧
    (∀ (s : State) (k : Fin 4), s.level = s.gamePattern.length →
      (nextSequence s k).level = (nextSequence s k).gamePattern.length) ∧
    (∀ (s : State) (c : Signal), s.level = s.gamePattern.length →
      (submitInput s c).level = (submitInput s c).gamePattern.length) ∧
    (∀ (st : Option Nat) (a b : Bool) (evs : List Event),
      (run (init st a b) evs).level = (run (init st a b) evs).gamePattern.length) := by
  have hnext : ∀ (s : State) (k : Fin 4), s.level = s.gamePattern.length →
      (nextSequence s k).level = (nextSequence s k).gamePattern.length := by
    intro s k h
    simp [nextSequence, h]
  have hsubmit : ∀ (s : State) (c : Signal), s.level = s.gamePattern.length →
      (submitInput s c).level = (submitInput s c).gamePattern.length := by
    intro s c h
    show (submitInput s c).vars.level = (submitInput s c).vars.gamePattern.length
    rw [submitInput_vars]
    split
    · split
      · exact h
      · rfl
    · exact h
  have hstep : ∀ (s : State) (e : Event), s.level = s.gamePattern.length →
      (step s e).level = (step s e).gamePattern.length :=
    step_preserves (fun v => v.level = v.gamePattern.length) (fun _ _ => rfl) hnext hsubmit
      (fun _ _ h => h) (fun _ _ h => h)
  exact ⟨fun _ _ _ => rfl, hstep, hnext, hsubmit, fun st a b evs =>
    run_preserves (fun v => v.level = v.gamePattern.length) hstep evs (init st a b) rfl⟩

/-- C4, at level 3: a wrong click, and a `nextSequence` left pending by a
completed level that fires after the failure, both keep the equality. -/
theorem level_eq_length_invariant_witness :
    (step level3 (Event.gridClick (some Signal.blue))).level
      = (step level3 (Event.gridClick (some Signal.blue))).gamePattern.length ∧
    (nextSequence (submitInput level3 Signal.blue) 1).level
      = (nextSequence (submitInput level3 Signal.blue) 1).gamePattern.length :=
  ⟨level_eq_length_invariant.2.1 level3 _ (by decide),
   level_eq_length_invariant.2.2.1 (submitInput level3 Signal.blue) 1 (by decide)⟩

/-- C5. `userPattern.length ≤ gamePattern.length` holds in every initial state,
is kept by every event run to completion and by `nextSequence` on any state, and
so holds after every run from an initial state; in particular a click made when
`userPattern` is already as long as `gamePattern` (right after `startGame`, or
after a completed level) empties both. -/
theorem input_length_le_invariant :
    (∀ (st : Option Nat) (a b : Bool),
      (init st a b).userPattern.length ≤ (init st a b).gamePattern.length) ∧
    (∀ (s : State) (e : Event), s.userPattern.length ≤ s.gamePattern.length →
      (step s e).userPattern.length ≤ (step s e).gamePattern.length) ∧
    (∀ (s : State) (k : Fin 4),
      (nextSequence s k).userPattern.length ≤ (nextSequence s k).gamePattern.length) ∧
    (∀ (s : State) (c : Signal), s.started = true →
      s.userPattern.length = s.gamePattern.length →
      (submitInput s c).userPattern = [] ∧ (submitInput s c).gamePattern = []) ∧
    (∀ (st : Option Nat) (a b : Bool) (evs : List Event),
      (run (init st a b) evs).userPattern.length ≤ (run (init st a b) evs).gamePattern.length) := by
  have hnext : ∀ (s : State) (k : Fin 4),
      (nextSequence s k).userPattern.length ≤ (nextSequence s k).gamePattern.length := by
    intro s k
    simp [nextSequence]
  have hsubmit : ∀ (s : State) (c : Signal), s.userPattern.length ≤ s.gamePattern.length →
      (submitInput s c).userPattern.length ≤ (submitInput s c).gamePattern.length := by
    intro s c h
    show (submitInput s c).vars.userPattern.length ≤ (submitInput s c).vars.gamePattern.length
    rw [submitInput_vars]
    split
    · split
      · rename_i hm
        have hlt : s.userPattern.length < s.gamePattern.length := by
          by_contra hge
          rw [List.getElem?_eq_none (Nat.le_of_not_lt hge)] at hm
          exact Option.noConfusion hm
        simpa using hlt
      · exact Nat.le_refl _
    · exact h
  have hstep : ∀ (s : State) (e : Event), s.userPattern.length ≤ s.gamePattern.length →
      (step s e).userPattern.length ≤ (step s e).gamePattern.length :=
    step_preserves (fun v => v.userPattern.length ≤ v.gamePattern.length)
      (fun _ _ => Nat.le_refl _) (fun s k _ => hnext s k) hsubmit (fun _ _ h => h) (fun _ _ h => h)
  refine ⟨fun _ _ _ => Nat.le_refl _, hstep, hnext, ?_, fun st a b evs =>
    run_preserves (fun v => v.userPattern.length ≤ v.gamePattern.length) hstep evs (init st a b)
      (Nat.le_refl _)⟩
  intro s c hs hl
  have hm : s.gamePattern[s.userPattern.length]? ≠ some c := by
    rw [List.getElem?_eq_none (Nat.le_of_eq hl.symm)]
    exact fun h => Option.noConfusion h
  have h := submitInput_wrong s c hs hm
  exact ⟨congrArg Vars.userPattern h, congrArg Vars.gamePattern h⟩

/-- C5, on two concrete states: a click right after `startGame` (before the
first `nextSequence` fires), and a click after level 3 has been completed and
before the next `nextSequence` fires. -/
theorem input_length_le_invariant_witness :
    ((step fresh (Event.gridClick (some Signal.red))).userPattern.length
      ≤ (step fresh (Event.gridClick (some Signal.red))).gamePattern.length) ∧
    ((submitInput (clicks level3 [Signal.green, Signal.red, Signal.yellow])
        Signal.green).userPattern = [] ∧
      (submitInput (clicks level3 [Signal.green, Signal.red, Signal.yellow])
        Signal.green).gamePattern = []) :=
  ⟨input_length_le_invariant.2.1 fresh _ (by decide),
   input_length_le_invariant.2.2.2.1 (clicks level3 [Signal.green, Signal.red, Signal.yellow])
     Signal.green (by decide) (by decide)⟩

/-! ## Failure and the high score -/

/-- C6. In an active state, a click that differs from `gamePattern` at the
appended index (also when there is no such entry) leaves `gamePattern = []`,
`userPattern = []`, `level = 0`, `score = 0` and `started = false`, whatever
they were before. -/
theorem failure_discards_round (s : State) (c : Signal)
    (hs : s.started = true)
    (hm : s.gamePattern[s.userPattern.length]? ≠ some c) :
    (submitInput s c).gamePattern = [] ∧
    (submitInput s c).userPattern = [] ∧
    (submitInput s c).level = 0 ∧
    (submitInput s c).score = 0 ∧
    (submitInput s c).started = false := by
  have h := submitInput_wrong s c hs hm
  exact ⟨congrArg Vars.gamePattern h, congrArg Vars.userPattern h, congrArg Vars.level h,
    congrArg Vars.score h, congrArg Vars.started h⟩

/-- C6, at level 3 after the clicks green, red: the click blue (yellow was
due) discards the round. -/
theorem failure_discards_round_witness :
    (submitInput (clicks level3 [Signal.green, Signal.red]) Signal.blue).gamePattern = [] ∧
    (submitInput (clicks level3 [Signal.green, Signal.red]) Signal.blue).level = 0 ∧
    (submitInput (clicks level3 [Signal.green, Signal.red]) Signal.blue).score = 0 := by
  have h := failure_discards_round (clicks level3 [Signal.green, Signal.red]) Signal.blue
    (by decide) (by decide)
  exact ⟨h.1, h.2.2.1, h.2.2.2.1⟩

/-- C7. A failing click from score `S` and high score `H` leaves the high
score at `max H S`: when `S > H` both `highScore` and the persisted item become
`S`, otherwise both are unchanged. And after any run of events from any state,
`highScore` is the maximum of its value at the beginning and of the scores held
at the failures of the run. -/
theorem highScore_is_max_over_failures :
    (∀ (s : State) (c : Signal), s.started = true →
      s.gamePattern[s.userPattern.length]? ≠ some c →
      (submitInput s c).highScore = max s.highScore s.score ∧
      (s.highScore < s.score →
        (submitInput s c).highScore = s.score ∧ (submitInput s c).stored = some s.score) ∧
      (s.score ≤ s.highScore →
        (submitInput s c).highScore = s.highScore ∧ (submitInput s c).stored = s.stored)) ∧
    (∀ (s : State) (evs : List Event),
      (run s evs).highScore = (failScores s evs).foldl max s.highScore) := by
  constructor
  · intro s c hs hm
    have h := submitInput_wrong s c hs hm
    have h1 : (submitInput s c).highScore = max s.highScore s.score := congrArg Vars.highScore h
    have h2 : (submitInput s c).stored
        = if s.score > s.highScore then some s.score else s.stored := congrArg Vars.stored h
    refine ⟨h1, fun hlt => ⟨?_, ?_⟩, fun hle => ⟨?_, ?_⟩⟩
    · rw [h1, Nat.max_eq_right (Nat.le_of_lt hlt)]
    · rw [h2, if_pos hlt]
    · rw [h1, Nat.max_eq_left hle]
    · rw [h2, if_neg (Nat.not_lt.mpr hle)]
  · intro s evs
    induction evs generalizing s with
    | nil => rfl
    | cons e es ih =>
      have e2 : failScores s (e :: es) =
          if fails s e then s.score :: failScores (step s e) es
          else failScores (step s e) es := rfl
      rw [run_cons, ih (step s e), step_highScore, e2]
      by_cases hf : fails s e = true
      · simp [hf]
      · simp [hf]

/-- C7, at level 3 with score 30 and a persisted high score of 20: the failing
click makes both the high score and the persisted item 30. -/
theorem highScore_is_max_over_failures_witness :
    (submitInput level3High20 Signal.blue).highScore = 30 ∧
    (submitInput level3High20 Signal.blue).stored = some 30 :=
  (highScore_is_max_over_failures.1 level3High20 Signal.blue (by decide) (by decide)).2.1
    (by decide)

/-- C8. Every event leaves `highScore` at least as large as it was, and
changes it only if it is a click in an active session that differs from
`gamePattern` at the appended index while `score > highScore`; `startGame`,
`restart`, `nextSequence` and the two settings handlers leave it as it is. -/
theorem highScore_never_decreases (s : State) (e : Event) :
    s.highScore ≤ (step s e).highScore ∧
    ((step s e).highScore ≠ s.highScore →
      ∃ c, e = Event.gridClick (some c) ∧ s.started = true ∧
        s.gamePattern[s.userPattern.length]? ≠ some c ∧ s.highScore < s.score) ∧
    (startGame s).highScore = s.highScore ∧
    (restart s).highScore = s.highScore ∧
    (∀ k, (nextSequence s k).highScore = s.highScore) ∧
    (∀ b, (setSoundEnabled s b).highScore = s.highScore) ∧
    (∀ v, (setSpeed s v).highScore = s.highScore) ∧
    (∀ c, (submitInput s c).highScore =
      if s.started = true ∧ s.gamePattern[s.userPattern.length]? ≠ some c ∧
        s.highScore < s.score then s.score else s.highScore) := by
  refine ⟨?_, ?_, ?_, ?_, fun _ => rfl, fun _ => rfl, fun _ => rfl, ?_⟩
  · rw [step_highScore]
    split
    · exact Nat.le_max_left _ _
    · exact Nat.le_refl _
  · intro hne
    rw [step_highScore] at hne
    by_cases hf : fails s e = true
    · rw [if_pos hf] at hne
      cases e with
      | gridClick b =>
        cases b with
        | none => simp [fails] at hf
        | some c =>
          simp only [fails, Bool.and_eq_true, decide_eq_true_eq] at hf
          refine ⟨c, rfl, hf.1, hf.2, ?_⟩
          by_contra hle
          exact hne (Nat.max_eq_left (Nat.le_of_not_lt hle))
      | _ => simp [fails] at hf
    · rw [if_neg hf] at hne
      exact absurd rfl hne
  · have := step_highScore s Event.startClick
    simpa [fails] using this
  · have := step_highScore s Event.restartClick
    simpa [fails] using this
  · intro c
    have := step_highScore s (Event.gridClick (some c))
    have e1 : step s (Event.gridClick (some c)) = submitInput s c := rfl
    rw [e1] at this
    rw [this]
    by_cases hs : s.started = true
    · by_cases hm : s.gamePattern[s.userPattern.length]? = some c
      · simp [fails, hs, hm]
      · by_cases hlt : s.highScore < s.score
        · simp [fails, hs, hm, hlt, Nat.max_eq_right (Nat.le_of_lt hlt)]
        · simp [fails, hs, hm, hlt, Nat.max_eq_left (Nat.le_of_not_lt hlt)]
    · simp [fails, hs]

/-! ## `nextSequence` and `startGame` -/

/-- C9. On any state and for any draw, `nextSequence` appends exactly one
colour of `COLORS` to `gamePattern` (the old pattern stays as a prefix), adds 1
to `level`, empties `userPattern`, and leaves `score`, `highScore`, the
persisted item, `started`, `soundOn` and `speed` unchanged. -/
theorem nextSequence_appends_one (s : State) (k : Fin 4) :
    (∃! c, c ∈ COLORS ∧ (nextSequence s k).gamePattern = s.gamePattern ++ [c]) ∧
    (nextSequence s k).gamePattern = s.gamePattern ++ [colorAt k] ∧
    (nextSequence s k).level = s.level + 1 ∧
    (nextSequence s k).userPattern = [] ∧
    (nextSequence s k).score = s.score ∧
    (nextSequence s k).highScore = s.highScore ∧
    (nextSequence s k).stored = s.stored ∧
    (nextSequence s k).started = s.started ∧
    (nextSequence s k).soundOn = s.soundOn ∧
    (nextSequence s k).speed = s.speed := by
  refine ⟨⟨colorAt k, ⟨?_, rfl⟩, ?_⟩, rfl, rfl, rfl, rfl, rfl, rfl, rfl, rfl, rfl⟩
  · revert k
    decide
  · rintro c ⟨-, hc⟩
    have h : s.gamePattern ++ [colorAt k] = s.gamePattern ++ [c] := hc
    simpa using (List.append_cancel_left h).symm

/-- C10. `startGame` twice is `startGame` once, as whole states (timers
included), and on an active state `startGame` changes nothing at all; the same
holds for the keyboard start. -/
theorem startGame_idempotent :
    (∀ s : State, startGame (startGame s) = startGame s) ∧
    (∀ s : State, s.started = true → startGame s = s) ∧
    (∀ s : State, pendingNext (startGame (startGame s)) = pendingNext (startGame s)) ∧
    (∀ s : State, keydown (keydown s) = keydown s) := by
  have hact : ∀ s : State, s.started = true → startGame s = s := by
    intro s hs
    unfold startGame
    rw [if_neg (by simp [hs])]
  have hst : ∀ s : State, (startGame s).started = true := by
    intro s
    show (startGame s).vars.started = true
    rw [startGame_vars]
    split
    · assumption
    · rfl
  have hidem : ∀ s : State, startGame (startGame s) = startGame s :=
    fun s => hact _ (hst s)
  refine ⟨hidem, hact, fun s => by rw [hidem], ?_⟩
  intro s
  unfold keydown
  by_cases hs : s.started = true
  · simp [hs]
  · simp [hs, hst]

/-- C10, on concrete states: a second `startGame` right after the first, and
`startGame` in the middle of level 3. -/
theorem startGame_idempotent_witness :
    startGame (startGame (init none true false)) = startGame (init none true false) ∧
    startGame level3 = level3 :=
  ⟨startGame_idempotent.1 (init none true false), startGame_idempotent.2.1 level3 (by decide)⟩

/-! ## Inactive clicks, restart and the settings -/

/-- C11. While the session is not active, a click on a tile leaves the whole
state as it is: game variables, persisted item, page, tones, pulses and the
timer queue (nothing is flashed, played or scheduled). -/
theorem submitInput_inactive (s : State) (c : Signal) (hs : s.started = false) :
    submitInput s c = s ∧
    step s (Event.gridClick (some c)) = s ∧
    (submitInput s c).tones = s.tones ∧
    (submitInput s c).pulse = s.pulse ∧
    (submitInput s c).timers = s.timers := by
  have h : submitInput s c = s := by
    unfold submitInput
    rw [if_pos (by simp [hs])]
  exact ⟨h, h, by rw [h], by rw [h], by rw [h]⟩

/-- C11, on the page as first opened, and on the state left by a failure at
level 3. -/
theorem submitInput_inactive_witness :
    submitInput (init none true false) Signal.green = init none true false ∧
    submitInput (submitInput level3 Signal.blue) Signal.green = submitInput level3 Signal.blue :=
  ⟨(submitInput_inactive (init none true false) Signal.green rfl).1,
   (submitInput_inactive (submitInput level3 Signal.blue) Signal.green (by decide)).1⟩

/-- C12. From any state, `restart` gives an active session with empty
patterns, level 0 and score 0, schedules exactly one more `nextSequence` (after
400 ms, as the newest timer), and leaves `highScore`, the persisted item,
`soundOn` and `speed` as they were, whatever the score was; it is `startGame`
run on the state with the session variables reset. -/
theorem restart_resets_and_starts (s : State) :
    (restart s).started = true ∧
    (restart s).gamePattern = [] ∧
    (restart s).userPattern = [] ∧
    (restart s).level = 0 ∧
    (restart s).score = 0 ∧
    pendingNext (restart s) = pendingNext s + 1 ∧
    (restart s).timers = s.timers ++ [⟨400, Callback.nextSequence⟩] ∧
    (restart s).highScore = s.highScore ∧
    (restart s).stored = s.stored ∧
    (restart s).highSpan = s.highSpan ∧
    (restart s).soundOn = s.soundOn ∧
    (restart s).speed = s.speed ∧
    restart s =
      startGame
        { s with
          started := false
          gamePattern := []
          userPattern := []
          level := 0
          score := 0
          levelSpan := 0
          scoreSpan := 0 } := by
  have ht : (restart s).timers = s.timers ++ [⟨400, Callback.nextSequence⟩] := rfl
  refine ⟨rfl, rfl, rfl, rfl, rfl, ?_, ht, rfl, rfl, rfl, rfl, rfl, rfl⟩
  unfold pendingNext
  rw [ht, List.filter_append]
  simp

/-- C14. The two settings handlers change their own variable and nothing
else: every other variable, the persisted item, the page, the tones and the
timer queue stay as they are. With sound off a flash still pulses the tile but
starts no tone. -/
theorem settings_only_change_themselves (s : State) (b : Bool) (v : Nat) (c : Signal) :
    (setSoundEnabled s b).soundOn = b ∧
    setSoundEnabled s b = { s with soundOn := b } ∧
    (setSoundEnabled s b).vars = { s.vars with soundOn := b } ∧
    (setSoundEnabled s b).timers = s.timers ∧
    (setSoundEnabled s b).tones = s.tones ∧
    (setSoundEnabled s b).pulse = s.pulse ∧
    (setSpeed s v).speed = v ∧
    setSpeed s v = { s with speed := v } ∧
    (setSpeed s v).vars = { s.vars with speed := v } ∧
    (setSpeed s v).timers = s.timers ∧
    (setSpeed s v).tones = s.tones ∧
    (setSpeed s v).pulse = s.pulse ∧
    (flashButton (setSoundEnabled s false) c).tones = s.tones ∧
    c ∈ (flashButton (setSoundEnabled s false) c).pulse := by
  refine ⟨rfl, rfl, rfl, rfl, rfl, rfl, rfl, rfl, rfl, rfl, rfl, rfl, ?_, ?_⟩
  · simp [flashButton, playTone, setSoundEnabled]
  · simp only [flashButton, playTone, setSoundEnabled]
    by_cases h : c ∈ s.pulse <;> simp [h]

/-! ## The player's input against the pattern -/

theorem consistent_submitInput (s : State) (c : Signal) (h : s.vars.Consistent) :
    (submitInput s c).vars.Consistent := by
  rw [submitInput_vars]
  obtain ⟨h1, h2⟩ := h
  split
  · split
    · rename_i hm
      refine ⟨h1, ?_⟩
      show s.gamePattern.take (s.userPattern ++ [c]).length = s.userPattern ++ [c]
      have h2 : s.gamePattern.take s.userPattern.length = s.userPattern := h2
      rw [List.length_append, List.length_singleton, List.take_succ, h2, hm]
      rfl
    · exact ⟨rfl, rfl⟩
  · exact ⟨h1, h2⟩

theorem consistent_step (s : State) (e : Event) (h : s.vars.Consistent) :
    (step s e).vars.Consistent :=
  step_preserves Vars.Consistent (fun _ _ => ⟨rfl, rfl⟩)
    (fun s k h => ⟨by
      show s.level + 1 = (s.gamePattern ++ [colorAt k]).length
      rw [List.length_append, List.length_singleton]
      exact congrArg (· + 1) h.1, rfl⟩)
    consistent_submitInput (fun _ _ h => h) (fun _ _ h => h) s e h

theorem consistent_run (st : Option Nat) (a b : Bool) (evs : List Event) :
    (run (init st a b) evs).vars.Consistent :=
  run_preserves Vars.Consistent consistent_step evs (init st a b) ⟨rfl, rfl⟩

theorem score_increase_cases (s : State) (e : Event) (h : s.score < (step s e).score) :
    ∃ c, e = Event.gridClick (some c) ∧ s.started = true ∧
      s.gamePattern[s.userPattern.length]? = some c ∧
      s.userPattern.length + 1 = s.gamePattern.length := by
  have hsg : ¬ s.score < (startGame s).score := by
    show ¬ s.score < (startGame s).vars.score
    rw [startGame_vars]
    split
    · exact Nat.lt_irrefl _
    · exact Nat.not_lt_zero _
  cases e with
  | startClick => exact absurd h hsg
  | restartClick => exact absurd h (Nat.not_lt_zero _)
  | soundChange b => exact absurd h (Nat.lt_irrefl _)
  | speedChange v => exact absurd h (Nat.lt_irrefl _)
  | keydown =>
    have h : s.score < (keydown s).score := h
    unfold keydown at h
    split at h
    · exact absurd h hsg
    · exact absurd h (Nat.lt_irrefl _)
  | startKeyup en =>
    have h : s.score < (startKeyup s en).score := h
    unfold startKeyup at h
    split at h
    · exact absurd h hsg
    · exact absurd h (Nat.lt_irrefl _)
  | gridClick b =>
    cases b with
    | none => exact absurd h (Nat.lt_irrefl _)
    | some c =>
      have h : s.score < (submitInput s c).vars.score := h
      rw [submitInput_vars] at h
      by_cases hs : s.started = true
      · by_cases hm : s.gamePattern[s.userPattern.length]? = some c
        · by_cases hl : s.userPattern.length + 1 = s.gamePattern.length
          · exact ⟨c, rfl, hs, hm, hl⟩
          · rw [if_pos hs, if_pos hm] at h
            simp only [if_neg hl] at h
            exact absurd h (Nat.lt_irrefl _)
        · rw [if_pos hs, if_neg hm] at h
          exact absurd h (Nat.not_lt_zero _)
      · rw [if_neg hs] at h
        exact absurd h (Nat.lt_irrefl _)
  | timer i k =>
    have h : s.score < (fire s i k).vars.score := h
    rcases fire_vars s i k with h1 | h1 <;> rw [h1] at h <;> exact absurd h (Nat.lt_irrefl _)
  | audioState b => exact absurd h (Nat.lt_irrefl _)

/-- C13. After every run from an initial state, `level = 0` exactly when
`gamePattern` and `userPattern` are both empty. -/
theorem level_zero_iff_patterns_empty (st : Option Nat) (a b : Bool) (evs : List Event) :
    (run (init st a b) evs).level = 0 ↔
      ((run (init st a b) evs).gamePattern = [] ∧ (run (init st a b) evs).userPattern = []) := by
  obtain ⟨h1, h2⟩ := consistent_run st a b evs
  have h1 : (run (init st a b) evs).level = (run (init st a b) evs).gamePattern.length := h1
  have h2 : (run (init st a b) evs).gamePattern.take (run (init st a b) evs).userPattern.length
      = (run (init st a b) evs).userPattern := h2
  constructor
  · intro h0
    have hg : (run (init st a b) evs).gamePattern = [] :=
      List.eq_nil_of_length_eq_zero (by rw [← h1, h0])
    rw [hg, List.take_nil] at h2
    exact ⟨hg, h2.symm⟩
  · rintro ⟨hg, -⟩
    rw [h1, hg]
    rfl

/-- C19. After every run from an initial state, `userPattern` agrees with
`gamePattern` at every index it has (it is the beginning of `gamePattern`);
every event keeps this on any state that has it; and an event that raises the
score in such a state leaves `userPattern` equal to `gamePattern`. -/
theorem input_is_beginning_of_pattern :
    (∀ (st : Option Nat) (a b : Bool) (evs : List Event) (i : Nat),
      i < (run (init st a b) evs).userPattern.length →
      (run (init st a b) evs).userPattern[i]? = (run (init st a b) evs).gamePattern[i]?) ∧
    (∀ (s : State) (e : Event),
      s.gamePattern.take s.userPattern.length = s.userPattern →
      (step s e).gamePattern.take (step s e).userPattern.length = (step s e).userPattern) ∧
    (∀ (s : State) (e : Event),
      s.gamePattern.take s.userPattern.length = s.userPattern →
      s.score < (step s e).score →
      (step s e).userPattern = (step s e).gamePattern) ∧
    (∀ (st : Option Nat) (a b : Bool) (evs : List Event) (e : Event),
      (run (init st a b) evs).score < (run (init st a b) (evs ++ [e])).score →
      (run (init st a b) (evs ++ [e])).userPattern
        = (run (init st a b) (evs ++ [e])).gamePattern) := by
  have hstep : ∀ (s : State) (e : Event),
      s.gamePattern.take s.userPattern.length = s.userPattern →
      (step s e).gamePattern.take (step s e).userPattern.length = (step s e).userPattern := by
    intro s e h
    refine step_preserves (fun v => v.gamePattern.take v.userPattern.length = v.userPattern)
      (fun _ _ => rfl) (fun _ _ _ => rfl) ?_ (fun _ _ h => h) (fun _ _ h => h) s e h
    intro t c ht
    have ht : t.gamePattern.take t.userPattern.length = t.userPattern := ht
    show (submitInput t c).vars.gamePattern.take (submitInput t c).vars.userPattern.length
      = (submitInput t c).vars.userPattern
    rw [submitInput_vars]
    split
    · split
      · rename_i hm
        show t.gamePattern.take (t.userPattern ++ [c]).length = t.userPattern ++ [c]
        rw [List.length_append, List.length_singleton, List.take_succ, ht, hm]
        rfl
      · rfl
    · exact ht
  have hscore : ∀ (s : State) (e : Event),
      s.gamePattern.take s.userPattern.length = s.userPattern →
      s.score < (step s e).score →
      (step s e).userPattern = (step s e).gamePattern := by
    intro s e h hlt
    obtain ⟨c, rfl, hs, hm, hl⟩ := score_increase_cases s e hlt
    have hv := submitInput_vars s c
    rw [if_pos hs, if_pos hm] at hv
    have hu : (submitInput s c).userPattern = s.userPattern ++ [c] := congrArg Vars.userPattern hv
    have hg : (submitInput s c).gamePattern = s.gamePattern := congrArg Vars.gamePattern hv
    show (submitInput s c).userPattern = (submitInput s c).gamePattern
    rw [hu, hg]
    have := List.take_succ (l := s.gamePattern) (n := s.userPattern.length)
    rw [hl, List.take_length, h, hm] at this
    exact this.symm
  refine ⟨?_, hstep, hscore, ?_⟩
  · intro st a b evs i hi
    have h2 : (run (init st a b) evs).gamePattern.take (run (init st a b) evs).userPattern.length
        = (run (init st a b) evs).userPattern := (consistent_run st a b evs).2
    have h3 := List.getElem?_take_of_lt (l := (run (init st a b) evs).gamePattern) hi
    rw [h2] at h3
    exact h3
  · intro st a b evs e hlt
    have e1 : run (init st a b) (evs ++ [e]) = step (run (init st a b) evs) e := by
      simp [run, List.foldl_append]
    rw [e1] at hlt ⊢
    exact hscore _ e (consistent_run st a b evs).2 hlt

/-- C19, at level 3 after the clicks green, red: the click yellow raises the
score, and `userPattern` is then the whole of `gamePattern`. -/
theorem input_is_beginning_of_pattern_witness :
    (step (clicks level3 [Signal.green, Signal.red])
        (Event.gridClick (some Signal.yellow))).userPattern
      = [Signal.green, Signal.red, Signal.yellow] ∧
    (step (clicks level3 [Signal.green, Signal.red])
        (Event.gridClick (some Signal.yellow))).gamePattern
      = [Signal.green, Signal.red, Signal.yellow] := by
  have h := input_is_beginning_of_pattern.2.2.1 (clicks level3 [Signal.green, Signal.red])
    (Event.gridClick (some Signal.yellow)) (by decide) (by decide)
  have hg : (step (clicks level3 [Signal.green, Signal.red])
      (Event.gridClick (some Signal.yellow))).gamePattern
      = [Signal.green, Signal.red, Signal.yellow] := by decide
  exact ⟨h.trans hg, hg⟩

/-- C20. In an active state whose `userPattern` is as long as `gamePattern`,
a click on any tile takes the failure branch: the index compared is past the
end of `gamePattern`; `highScore` becomes the larger of `highScore` and `score`
(persisted when it grows), the round is reset and the session is inactive. -/
theorem click_at_full_length_fails (s : State) (c : Signal)
    (hs : s.started = true) (hl : s.userPattern.length = s.gamePattern.length) :
    s.gamePattern[s.userPattern.length]? = none ∧
    fails s (Event.gridClick (some c)) = true ∧
    (submitInput s c).vars =
      { gamePattern := []
        userPattern := []
        level := 0
        started := false
        score := 0
        highScore := max s.highScore s.score
        stored := if s.score > s.highScore then some s.score else s.stored
        soundOn := s.soundOn
        speed := s.speed } ∧
    (submitInput s c).levelTitle = Title.gameOver := by
  have hn : s.gamePattern[s.userPattern.length]? = none :=
    List.getElem?_eq_none (Nat.le_of_eq hl.symm)
  have hm : s.gamePattern[s.userPattern.length]? ≠ some c := by
    rw [hn]
    exact fun h => Option.noConfusion h
  refine ⟨hn, by simp [fails, hs, hn], submitInput_wrong s c hs hm, ?_⟩
  have hf := flashButton_vars { s with userPattern := s.userPattern ++ [c] } c
  rw [submitInput_active s c hs]
  generalize flashButton { s with userPattern := s.userPattern ++ [c] } c = t at hf ⊢
  simp only [State.vars, Vars.mk.injEq] at hf
  obtain ⟨hg, hu, -⟩ := hf
  have hm2 : t.gamePattern[s.userPattern.length]? ≠ t.userPattern[s.userPattern.length]? := by
    rw [hg, hu, hn]
    simp
  unfold checkAnswer
  rw [if_neg hm2]
  simp only []
  split <;> rfl

/-- C20, on two states: right after `startGame` (both patterns empty), and
after level 3 has been completed with score 60 and before `nextSequence`
fires. -/
theorem click_at_full_length_fails_witness :
    (submitInput fresh Signal.red).vars.started = false ∧
    (submitInput (clicks level3 [Signal.green, Signal.red, Signal.yellow])
      Signal.green).vars.highScore = 60 := by
  have h1 := (click_at_full_length_fails fresh Signal.red (by decide) (by decide)).2.2.1
  have h2 := (click_at_full_length_fails (clicks level3 [Signal.green, Signal.red, Signal.yellow])
    Signal.green (by decide) (by decide)).2.2.1
  exact ⟨congrArg Vars.started h1, (congrArg Vars.highScore h2).trans (by decide)⟩

/-! ## Playback and the random draw -/

theorem playbackLoop_eq_map (ft : Nat) : ∀ n i d : Nat,
    playbackLoop ft n i d
      = (List.range n).map (fun j => (⟨d + j * ft, Callback.flashAt (i + j)⟩ : Timer)) := by
  intro n
  induction n with
  | zero => intro i d; rfl
  | succ n ih =>
    intro i d
    rw [playbackLoop, ih, List.range_succ_eq_map, List.map_cons, List.map_map]
    refine congrArg₂ List.cons (by simp) (List.map_congr_left ?_)
    intro j _
    simp only [Function.comp, Timer.mk.injEq, Callback.flashAt.injEq]
    constructor
    · rw [Nat.succ_mul]; omega
    · omega

/-- C15. The timers added by one `nextSequence` are exactly one `flashAt i`
per index `i` of the new `gamePattern`, in order, the one for `i` at offset
`300 + i * T`, with `T = flashTime()` at the call: 480 for speed 1, 300 for
speed 2, 180 for speed 3, so fast < normal < slow; `T` is positive and the
offsets are strictly increasing in `i`. -/
theorem playback_offsets (s : State) (k : Fin 4) :
    (nextSequence s k).timers
      = s.timers ++ (List.range (nextSequence s k).gamePattern.length).map
          (fun i => (⟨300 + i * flashTime s, Callback.flashAt i⟩ : Timer)) ∧
    (s.speed = 1 → flashTime s = 480) ∧
    (s.speed = 2 → flashTime s = 300) ∧
    (s.speed = 3 → flashTime s = 180) ∧
    flashTime (setSpeed s 3) < flashTime (setSpeed s 2) ∧
    flashTime (setSpeed s 2) < flashTime (setSpeed s 1) ∧
    0 < flashTime s ∧
    (∀ i j : Nat, i < j → 300 + i * flashTime s < 300 + j * flashTime s) := by
  have hpos : 0 < flashTime s := by
    unfold flashTime
    split
    · decide
    · split <;> decide
  refine ⟨?_, ?_, ?_, ?_, by simp [flashTime, setSpeed], by simp [flashTime, setSpeed], hpos, ?_⟩
  · show s.timers ++ playbackLoop (flashTime s) (s.gamePattern ++ [colorAt k]).length 0 300 = _
    rw [playbackLoop_eq_map]
    simp [nextSequence]
  · intro h; simp [flashTime, h]
  · intro h; simp [flashTime, h]
  · intro h; simp [flashTime, h]
  · intro i j hij
    exact Nat.add_lt_add_left (Nat.mul_lt_mul_of_pos_right hij hpos) 300

/-- C15, for the third level at normal speed: the flashes of the three
entries are scheduled at 300, 600 and 900 ms. -/
theorem playback_offsets_witness :
    (nextSequence (playLevels fresh [0, 1]) 2).timers.drop (playLevels fresh [0, 1]).timers.length
      = [⟨300, Callback.flashAt 0⟩, ⟨600, Callback.flashAt 1⟩, ⟨900, Callback.flashAt 2⟩] ∧
    flashTime (playLevels fresh [0, 1]) = 300 := by
  have h := playback_offsets (playLevels fresh [0, 1]) 2
  refine ⟨?_, h.2.2.1 (by decide)⟩
  rw [h.1, List.drop_left]
  decide

theorem colors_getElem_eq_colorAt : ∀ (n : Nat) (k : Fin 4), n < 4 →
    (COLORS[n]? = some (colorAt k) ↔ n = k.val) := by
  intro n k hn
  interval_cases n <;> revert k <;> decide

/-- C17. For a draw `r` with `0 ≤ r < 1`, the index `Math.floor(r * 4)` is one
of 0, 1, 2, 3, so the colour read from `COLORS` is defined and is one of the
four; it is `COLORS[k]` exactly when `k / 4 ≤ r < (k + 1) / 4`; and it is this
colour that `nextSequence` appends, whatever the state. -/
theorem random_choice_is_uniform (r : ℚ) (h0 : 0 ≤ r) (h1 : r < 1) :
    0 ≤ randomIndex r ∧ randomIndex r < 4 ∧
    (∃ c, randomColor r = some c ∧ c ∈ COLORS) ∧
    (∀ k : Fin 4, randomColor r = some (colorAt k) ↔
      ((k.val : ℚ) / 4 ≤ r ∧ r < ((k.val : ℚ) + 1) / 4)) ∧
    (∃ k : Fin 4, randomIndex r = (k.val : ℤ) ∧ randomColor r = some (colorAt k) ∧
      ∀ s : State, (nextSequence s k).gamePattern = s.gamePattern ++ [colorAt k]) := by
  have hidx : randomIndex r = ⌊r * 4⌋ := by
    simp [randomIndex, COLORS]
  have hnn : 0 ≤ randomIndex r := by
    rw [hidx]
    exact Int.floor_nonneg.mpr (by positivity)
  have hlt : randomIndex r < 4 := by
    rw [hidx, Int.floor_lt]
    push_cast
    linarith
  obtain ⟨n, hn⟩ := Int.eq_ofNat_of_zero_le hnn
  have hn4 : n < 4 := by omega
  have hcol : randomColor r = COLORS[n]? := by
    unfold randomColor
    rw [if_pos hnn, hn]
    rfl
  have hk : randomColor r = some (colorAt ⟨n, hn4⟩) := by
    rw [hcol]
    exact (colors_getElem_eq_colorAt n ⟨n, hn4⟩ hn4).mpr rfl
  refine ⟨hnn, hlt, ⟨colorAt ⟨n, hn4⟩, hk, ?_⟩, ?_, ⟨⟨n, hn4⟩, hn, hk, fun _ => rfl⟩⟩
  · generalize (⟨n, hn4⟩ : Fin 4) = k
    revert k
    decide
  · intro k
    rw [hcol, colors_getElem_eq_colorAt n k hn4]
    have hfl : ⌊r * 4⌋ = (n : ℤ) := by rw [← hidx, hn]
    constructor
    · intro hnk
      rw [Int.floor_eq_iff] at hfl
      obtain ⟨ha, hb⟩ := hfl
      rw [← hnk]
      push_cast at ha hb
      constructor
      · linarith
      · linarith
    · rintro ⟨ha, hb⟩
      have : ⌊r * 4⌋ = (k.val : ℤ) := by
        rw [Int.floor_eq_iff]
        push_cast
        constructor
        · linarith
        · linarith
      rw [hfl] at this
      exact_mod_cast this

/-- C17, for the draw 5/8: the index is 2 and the colour is yellow. -/
theorem random_choice_is_uniform_witness :
    randomIndex (5 / 8) < 4 ∧ randomColor (5 / 8) = some Signal.yellow := by
  have h := random_choice_is_uniform (5 / 8) (by norm_num) (by norm_num)
  exact ⟨h.2.1, (h.2.2.2.1 2).mpr (by norm_num)⟩

/-! ## Callbacks that outlive their round -/

/-- C18. In the run `staleRun` (start, `nextSequence` fires, the player
clicks the right tile so that a new `nextSequence` is scheduled, clicks once
more before it fires and so fails, then the pending `nextSequence` fires) the
last state has `started = false`, `level = 1` and a `gamePattern` of length 1;
so "not started implies level 0 and empty `gamePattern`" does not hold after
every run. -/
theorem stale_nextSequence_runs_after_failure :
    (run (init none true false) (staleRun.take 6)).score = 10 ∧
    pendingNext (run (init none true false) (staleRun.take 6)) = 1 ∧
    (run (init none true false) (staleRun.take 7)).started = false ∧
    (run (init none true false) (staleRun.take 7)).level = 0 ∧
    pendingNext (run (init none true false) (staleRun.take 7)) = 1 ∧
    (run (init none true false) (staleRun.take 13)).timers = [⟨700, Callback.nextSequence⟩] ∧
    (run (init none true false) staleRun).started = false ∧
    (run (init none true false) staleRun).level = 1 ∧
    (run (init none true false) staleRun).gamePattern.length = 1 ∧
    ¬ (∀ (st : Option Nat) (a b : Bool) (evs : List Event),
        (run (init st a b) evs).started = false →
        (run (init st a b) evs).level = 0 ∧ (run (init st a b) evs).gamePattern = []) := by
  refine ⟨by decide, by decide, by decide, by decide, by decide, by decide, by decide,
    by decide, by decide, ?_⟩
  intro h
  have h1 := (h none true false staleRun (by decide)).1
  revert h1
  decide

/-! ## A speed change during playback -/

theorem flashButton_pulse (s : State) (c : Signal) :
    (flashButton s c).pulse = if c ∈ s.pulse then s.pulse else s.pulse ++ [c] := by
  unfold flashButton playTone
  simp only []
  split <;> rfl

theorem flashButton_tones (s : State) (c : Signal) :
    (flashButton s c).tones =
      if s.audioCtx = true ∧ s.soundOn = true
      then s.tones ++ [(Tone.tile c, max 100 (flashTime s / 2))] else s.tones := by
  unfold flashButton playTone
  simp only []
  by_cases ha : s.audioCtx = true <;> by_cases hb : s.soundOn = true <;>
    simp [ha, hb, flashTime]

theorem flashButton_timers_getLast (s : State) (c : Signal) :
    (flashButton s c).timers.getLast? = some ⟨flashTime s, Callback.removePulse c⟩ := by
  unfold flashButton playTone
  simp only []
  split <;> simp [flashTime]

theorem fire_flashAt (s : State) (i d j : Nat) (c : Signal) (k : Fin 4)
    (ht : s.timers[i]? = some ⟨d, Callback.flashAt j⟩) (hc : s.gamePattern[j]? = some c) :
    fire s i k = flashButton { s with timers := s.timers.eraseIdx i } c := by
  unfold fire
  rw [ht]
  simp only [runCallback, hc]

/-- C16 as stated fails. At level 1 the flash of entry 0 is pending at offset
300, scheduled at normal speed. If it fires as it is, the tone lasts 150 ms and
the pulse 300 ms; if `setSpeed(3)` runs first, the same event fires with a
tone of 100 ms and a pulse of 180 ms. -/
theorem speed_change_alters_pending_flash :
    level1.timers = [⟨300, Callback.flashAt 0⟩] ∧
    (setSpeed level1 3).timers = level1.timers ∧
    (fire level1 0 0).tones = [(Tone.tile Signal.green, 150)] ∧
    (fire (setSpeed level1 3) 0 0).tones = [(Tone.tile Signal.green, 100)] ∧
    (fire level1 0 0).timers
      = [⟨150, Callback.stopTone⟩, ⟨300, Callback.removePulse Signal.green⟩] ∧
    (fire (setSpeed level1 3) 0 0).timers
      = [⟨100, Callback.stopTone⟩, ⟨180, Callback.removePulse Signal.green⟩] ∧
    (fire (setSpeed level1 3) 0 0).tones ≠ (fire level1 0 0).tones ∧
    (fire (setSpeed level1 3) 0 0).timers ≠ (fire level1 0 0).timers := by
  decide

/-- C16, amended. For a flash already scheduled (a pending `flashAt j` with
`gamePattern[j]` present), `setSpeed` leaves the timer queue, hence the offset
and the index of the event, and `gamePattern` unchanged; fired with or without
the speed change, the event pulses the same tile and starts a tone of the
same name; the pulse lasts `flashTime()` and the tone
`max(100, flashTime() / 2)` of the speed in force when the event fires. -/
theorem speed_change_keeps_offsets_and_signals (s : State) (v i d j : Nat) (c : Signal)
    (k : Fin 4)
    (ht : s.timers[i]? = some ⟨d, Callback.flashAt j⟩) (hc : s.gamePattern[j]? = some c) :
    (setSpeed s v).timers = s.timers ∧
    (setSpeed s v).gamePattern = s.gamePattern ∧
    fire s i k = flashButton { s with timers := s.timers.eraseIdx i } c ∧
    fire (setSpeed s v) i k = flashButton (setSpeed { s with timers := s.timers.eraseIdx i } v) c ∧
    (fire (setSpeed s v) i k).pulse = (fire s i k).pulse ∧
    (fire (setSpeed s v) i k).tones.map Prod.fst = (fire s i k).tones.map Prod.fst ∧
    (fire (setSpeed s v) i k).vars = { (fire s i k).vars with speed := v } ∧
    (fire s i k).timers.getLast? = some ⟨flashTime s, Callback.removePulse c⟩ ∧
    (fire (setSpeed s v) i k).timers.getLast?
      = some ⟨flashTime (setSpeed s v), Callback.removePulse c⟩ ∧
    (s.audioCtx = true → s.soundOn = true →
      (fire s i k).tones = s.tones ++ [(Tone.tile c, max 100 (flashTime s / 2))] ∧
      (fire (setSpeed s v) i k).tones
        = s.tones ++ [(Tone.tile c, max 100 (flashTime (setSpeed s v) / 2))]) := by
  have h1 := fire_flashAt s i d j c k ht hc
  have h2 : fire (setSpeed s v) i k
      = flashButton (setSpeed { s with timers := s.timers.eraseIdx i } v) c :=
    fire_flashAt (setSpeed s v) i d j c k ht hc
  refine ⟨rfl, rfl, h1, h2, ?_, ?_, ?_, ?_, ?_, ?_⟩
  · rw [h1, h2, flashButton_pulse, flashButton_pulse]
    rfl
  · rw [h1, h2, flashButton_tones, flashButton_tones]
    by_cases ha : s.audioCtx = true <;> by_cases hb : s.soundOn = true <;>
      simp [ha, hb, setSpeed]
  · rw [h1, h2, flashButton_vars, flashButton_vars]
    rfl
  · rw [h1, flashButton_timers_getLast]
    rfl
  · rw [h2, flashButton_timers_getLast]
    rfl
  · intro ha hb
    rw [h1, h2, flashButton_tones, flashButton_tones]
    constructor
    · rw [if_pos ⟨ha, hb⟩]
      rfl
    · rw [if_pos ⟨ha, hb⟩]
      rfl

/-- C16 amended, at level 1 with `setSpeed(3)` before the pending flash: the
queue is untouched, and the flash pulses the same tile, for 180 ms. -/
theorem speed_change_keeps_offsets_and_signals_witness :
    (setSpeed level1 3).timers = level1.timers ∧
    (fire (setSpeed level1 3) 0 0).pulse = (fire level1 0 0).pulse ∧
    (fire (setSpeed level1 3) 0 0).timers.getLast?
      = some ⟨180, Callback.removePulse Signal.green⟩ := by
  have h := speed_change_keeps_offsets_and_signals level1 3 0 300 0 Signal.green 0
    (by decide) (by decide)
  exact ⟨h.1, h.2.2.2.2.1, h.2.2.2.2.2.2.2.2.1⟩

end Simon
